import Mathlib

/-!
Shallow embedding of the resilient email service (TypeScript repository).

The data model follows `types.ts`; the primitives follow
`utils/RateLimiter.ts`, `utils/CircuitBreaker.ts`, `utils/EmailQueue.ts`;
the orchestrator follows `EmailService.ts`.

Modelling conventions:
* `Date.now()` is modelled by a `Nat` clock threaded through the state and
  bumped at each read; the JavaScript clock is nondecreasing, so elapsed
  times use truncated `Nat` subtraction, matching `now - t` on a monotone
  clock.
* A provider's `send` either returns normally (`none`) or throws an error
  message (`some err`).  Real providers may answer differently on different
  calls, so the outcome is a function of the global send-call index, which
  the service threads through its state.
* TypeScript `Map` is an association list updated in place by `mapSet`;
  `Set` is a duplicate-free list extended by `setAdd`.
-/

/-- The `EmailRequest` from types.ts (the fields the engine reads). -/
structure EmailRequest where
  id : String
  toAddr : String
  subject : String
  body : String
deriving Repr, DecidableEq

/-- The five states of `EmailStatus.status` in types.ts. -/
inductive EmailState where
  | pending
  | sent
  | failed
  | rate_limited
  | queued
deriving Repr, DecidableEq

/-- The `EmailAttempt` from types.ts. -/
structure EmailAttempt where
  provider : String
  timestamp : Nat
  success : Bool
  error : Option String := none
  duration : Nat
deriving Repr, DecidableEq

/-- The `EmailStatus` from types.ts. -/
structure EmailStatus where
  status : EmailState
  provider : Option String := none
  error : Option String := none
  timestamp : Nat
  retryCount : Nat
  attempts : List EmailAttempt
deriving Repr, DecidableEq

/-- The `EmailServiceConfig` from types.ts, with the defaults of EmailService.ts. -/
structure EmailServiceConfig where
  maxRetries : Nat := 3
  retryDelayMs : Nat := 100
  rateLimitMax : Nat := 10
  rateLimitWindowMs : Nat := 1000
  circuitBreakerThreshold : Nat := 3
  circuitBreakerTimeoutMs : Nat := 10000
  queueMaxSize : Nat := 1000
  queueProcessIntervalMs : Nat := 100
deriving Repr, DecidableEq

/-- The provider capability contract of types.ts.  `sendResult i` is the
outcome of the `i`-th `send` call issued by the engine: `none` models a
normal return, `some err` models a thrown error with message `err`. -/
structure EmailProvider where
  name : String
  sendResult : Nat → Option String
  healthy : Bool

/-- The `CircuitBreaker` from utils/CircuitBreaker.ts. -/
structure CircuitBreaker where
  threshold : Nat
  timeout : Nat
  failures : Nat := 0
  lastFailureTime : Nat := 0
deriving Repr, DecidableEq

/-- The `CircuitBreaker.reset`: zeroes the failure count. -/
def CircuitBreaker.reset (b : CircuitBreaker) : CircuitBreaker :=
  { b with failures := 0 }

/-- The `CircuitBreaker.isOpen`, returning the answer and the (possibly
auto-reset) breaker. -/
def CircuitBreaker.isOpen (b : CircuitBreaker) (now : Nat) : Bool × CircuitBreaker :=
  if b.threshold ≤ b.failures then
    if now - b.lastFailureTime < b.timeout then (true, b)
    else (false, b.reset)
  else (false, b)

/-- The `CircuitBreaker.recordFailure`. -/
def CircuitBreaker.recordFailure (b : CircuitBreaker) (now : Nat) : CircuitBreaker :=
  { b with failures := b.failures + 1, lastFailureTime := now }

/-- The `RateLimiter` from utils/RateLimiter.ts. -/
structure RateLimiter where
  max : Nat
  interval : Nat
  requests : List Nat := []
deriving Repr, DecidableEq

/-- The `RateLimiter.allow`: prune the log to the trailing window, then admit
iff fewer than `max` entries remain, recording the admission time. -/
def RateLimiter.allow (rl : RateLimiter) (now : Nat) : Bool × RateLimiter :=
  let pruned := rl.requests.filter (fun t => now - t < rl.interval)
  if pruned.length < rl.max then
    (true, { rl with requests := pruned ++ [now] })
  else
    (false, { rl with requests := pruned })

/-- Runs a sequence of `allow` calls at the given times; returns the final
limiter and the list of admitted call times, in call order. -/
def runAllow (rl : RateLimiter) : List Nat → RateLimiter × List Nat
  | [] => (rl, [])
  | t :: ts =>
    let r := rl.allow t
    let rest := runAllow r.2 ts
    (rest.1, if r.1 then t :: rest.2 else rest.2)

/-- The `EmailQueueItem` from types.ts. -/
structure EmailQueueItem where
  email : EmailRequest
  priority : Int
  timestamp : Nat
  retryCount : Nat
deriving Repr, DecidableEq

/-- The `EmailQueue` from utils/EmailQueue.ts (the buffer, its capacity, and the
drain-loop flag). -/
structure EmailQueue where
  maxSize : Nat
  queue : List EmailQueueItem := []
  processing : Bool := false
deriving Repr, DecidableEq

/-- The `findIndex`/`splice` insertion of `EmailQueue.enqueue`: the new item
goes immediately before the first existing item of strictly smaller
priority (at the end when there is none). -/
def insertByPriority (item : EmailQueueItem) : List EmailQueueItem → List EmailQueueItem
  | [] => [item]
  | x :: xs =>
    if x.priority < item.priority then item :: x :: xs
    else x :: insertByPriority item xs

/-- The `EmailQueue.enqueue`: reject when full, otherwise insert by priority.
The constructed entry always starts with `retryCount := 0`. -/
def EmailQueue.enqueue (q : EmailQueue) (email : EmailRequest) (priority : Int)
    (now : Nat) : Bool × EmailQueue :=
  if q.maxSize ≤ q.queue.length then (false, q)
  else
    (true, { q with queue := insertByPriority ⟨email, priority, now, 0⟩ q.queue })

/-- The `EmailQueue.dequeue` (`Array.shift`). -/
def EmailQueue.dequeue (q : EmailQueue) : Option EmailQueueItem × EmailQueue :=
  match q.queue with
  | [] => (none, q)
  | x :: xs => (some x, { q with queue := xs })

/-- One iteration of the body of `EmailQueue.startProcessing`, for a callback
that either returns (`cbFails e = false`) or throws (`cbFails e = true`):
dequeue one entry; if the callback throws and the dequeued entry's
redelivery count is below 3, re-enqueue the request at its priority.
Note the re-enqueued entry is built by `enqueue`, hence with
`retryCount := 0` — the `item.retryCount++` of the source mutates only the
discarded local item. -/
def EmailQueue.processOnce (q : EmailQueue) (cbFails : EmailRequest → Bool)
    (now : Nat) : EmailQueue :=
  match q.queue with
  | [] => q
  | item :: rest =>
    let q1 : EmailQueue := { q with queue := rest }
    if cbFails item.email then
      if item.retryCount < 3 then (q1.enqueue item.email item.priority now).2
      else q1
    else q1

/-- Iterates `processOnce` (successive cycles of the drain loop). -/
def EmailQueue.processIter (q : EmailQueue) (cbFails : EmailRequest → Bool)
    (now : Nat) : Nat → EmailQueue
  | 0 => q
  | n + 1 => (q.processOnce cbFails now).processIter cbFails now n

/-- Association-list model of a TypeScript `Map`: `set` replaces the first
binding of the key in place, or appends a new binding. -/
def mapSet {α : Type} (m : List (String × α)) (k : String) (v : α) :
    List (String × α) :=
  match m with
  | [] => [(k, v)]
  | (k', v') :: rest => if k' = k then (k, v) :: rest else (k', v') :: mapSet rest k v

/-- Association-list model of TypeScript `Map.get`. -/
def mapGet {α : Type} (m : List (String × α)) (k : String) : Option α :=
  match m with
  | [] => none
  | (k', v') :: rest => if k' = k then some v' else mapGet rest k

/-- Model of TypeScript `Set.add`: append iff absent. -/
def setAdd (s : List String) (x : String) : List String :=
  if x ∈ s then s else s ++ [x]

/-- The state of an `EmailService` instance (EmailService.ts): providers in
construction order, the status map, the rate limiter, the sent-set, one
circuit breaker per provider name, the queue, the processing flag; plus the
modelled clock and the global send-call counter. -/
structure EmailService where
  providers : List EmailProvider
  config : EmailServiceConfig
  statusMap : List (String × EmailStatus) := []
  rateLimiter : RateLimiter
  sentEmails : List String := []
  breakerMap : List (String × CircuitBreaker) := []
  queue : EmailQueue
  processing : Bool := false
  clock : Nat := 0
  sendCalls : Nat := 0

/-- The `EmailService` constructor: fresh limiter and queue from the config,
one fresh breaker registered per provider name. -/
def mkEmailService (providers : List EmailProvider)
    (config : EmailServiceConfig) : EmailService :=
  { providers := providers
    config := config
    rateLimiter := { max := config.rateLimitMax, interval := config.rateLimitWindowMs }
    breakerMap := providers.foldl
      (fun m p => mapSet m p.name
        { threshold := config.circuitBreakerThreshold
          timeout := config.circuitBreakerTimeoutMs })
      []
    queue := { maxSize := config.queueMaxSize } }

/-- The retry loop of `processEmail` against a single provider: up to `fuel`
(`maxRetries - attempt`) tries; `attempt` is the number of attempts already
made against this provider.  Returns whether a send succeeded, the updated
status value, and the updated service state (sent-set, breaker, counters). -/
def tryProvider (p : EmailProvider) (email : EmailRequest) :
    Nat → Nat → EmailStatus → EmailService → Bool × EmailStatus × EmailService
  | 0, _, status, svc => (false, status, svc)
  | fuel + 1, attempt, status, svc =>
    let attemptStart := svc.clock
    let callIdx := svc.sendCalls
    let svc1 : EmailService :=
      { svc with clock := svc.clock + 1, sendCalls := svc.sendCalls + 1 }
    match p.sendResult callIdx with
    | none =>
      let att : EmailAttempt :=
        { provider := p.name, timestamp := svc1.clock, success := true
          duration := svc1.clock - attemptStart }
      let status1 : EmailStatus :=
        { status with
            attempts := status.attempts ++ [att]
            status := EmailState.sent
            provider := some p.name
            retryCount := attempt }
      (true, status1, { svc1 with sentEmails := setAdd svc1.sentEmails email.id })
    | some err =>
      let att : EmailAttempt :=
        { provider := p.name, timestamp := svc1.clock, success := false
          error := some err, duration := svc1.clock - attemptStart }
      let status1 : EmailStatus :=
        { status with attempts := status.attempts ++ [att] }
      let svc2 : EmailService :=
        match mapGet svc1.breakerMap p.name with
        | some b =>
          { svc1 with
            breakerMap := mapSet svc1.breakerMap p.name (b.recordFailure svc1.clock) }
        | none => svc1
      -- exponential backoff sleep: time passes, no state change in the model
      tryProvider p email fuel (attempt + 1) status1 svc2

/-- The provider loop of `processEmail`: skip a provider whose breaker is
open (the `isOpen` call may auto-reset the breaker, which is written back)
or which is unhealthy; otherwise give it its full retry budget; stop at the
first success.  `breakerMap.get(name)!` always succeeds on a constructed
service, since the constructor registers a breaker per provider; a missing
breaker is modelled as skipping the provider. -/
def loopProviders (email : EmailRequest) :
    List EmailProvider → EmailStatus → EmailService → Bool × EmailStatus × EmailService
  | [], status, svc => (false, status, svc)
  | p :: rest, status, svc =>
    match mapGet svc.breakerMap p.name with
    | none => loopProviders email rest status svc
    | some b =>
      let now := svc.clock
      let svc1 : EmailService := { svc with clock := svc.clock + 1 }
      let r := b.isOpen now
      let svc2 : EmailService :=
        { svc1 with breakerMap := mapSet svc1.breakerMap p.name r.2 }
      if r.1 then loopProviders email rest status svc2
      else if p.healthy then
        let t := tryProvider p email svc2.config.maxRetries 0 status svc2
        if t.1 then (true, t.2.1, t.2.2)
        else loopProviders email rest t.2.1 t.2.2
      else loopProviders email rest status svc2

/-- The `EmailService.processEmail`: fresh `pending` status, provider loop,
terminal `failed` when nothing succeeded.  The status object is stored in
the map; the final map entry is the fully mutated status value. -/
def EmailService.processEmail (svc : EmailService) (email : EmailRequest) :
    EmailStatus × EmailService :=
  let status0 : EmailStatus :=
    { status := EmailState.pending, timestamp := svc.clock, retryCount := 0
      attempts := [] }
  let svc1 : EmailService :=
    { svc with
        statusMap := mapSet svc.statusMap email.id status0
        clock := svc.clock + 1 }
  let r := loopProviders email svc1.providers status0 svc1
  let finalStatus :=
    if r.1 then r.2.1
    else { r.2.1 with
             status := EmailState.failed
             error := some "All providers failed after retries" }
  (finalStatus,
   { r.2.2 with statusMap := mapSet r.2.2.statusMap email.id finalStatus })

/-- The `EmailService.sendEmail`: idempotency check on the sent-set, then
admission by the rate limiter, then the shared processing routine.  The
idempotent branch returns the stored status (`statusMap.get(id)!`). -/
def EmailService.sendEmail (svc : EmailService) (email : EmailRequest) :
    Option EmailStatus × EmailService :=
  if email.id ∈ svc.sentEmails then
    (mapGet svc.statusMap email.id, svc)
  else
    let now := svc.clock
    let svc1 : EmailService := { svc with clock := svc.clock + 1 }
    let r := svc1.rateLimiter.allow now
    let svc2 : EmailService := { svc1 with rateLimiter := r.2 }
    if r.1 then
      let pr := svc2.processEmail email
      (some pr.1, pr.2)
    else
      let status : EmailStatus :=
        { status := EmailState.rate_limited, error := some "Rate limit exceeded"
          timestamp := svc2.clock, retryCount := 0, attempts := [] }
      (some status, { svc2 with statusMap := mapSet svc2.statusMap email.id status })

/-- The `EmailService.queueEmail`: idempotency check, store a `queued` status,
enqueue; on enqueue failure overwrite the stored status to `failed` with
error "Queue is full"; start the drain loop if it is not running. -/
def EmailService.queueEmail (svc : EmailService) (email : EmailRequest)
    (priority : Int) : Option EmailStatus × EmailService :=
  if email.id ∈ svc.sentEmails then
    (mapGet svc.statusMap email.id, svc)
  else
    let status0 : EmailStatus :=
      { status := EmailState.queued, timestamp := svc.clock, retryCount := 0
        attempts := [] }
    let svc1 : EmailService := { svc with clock := svc.clock + 1 }
    let r := svc1.queue.enqueue email priority svc1.clock
    let status1 :=
      if r.1 then status0
      else { status0 with status := EmailState.failed, error := some "Queue is full" }
    let svc2 : EmailService :=
      { svc1 with
          queue := r.2
          statusMap := mapSet svc1.statusMap email.id status1 }
    let svc3 : EmailService :=
      if svc2.processing then svc2
      else { svc2 with
               processing := true
               queue := { svc2.queue with processing := true } }
    (some status1, svc3)

/-- One cycle of the drain loop started by `startQueueProcessing`, at the
service level: while the loop is running and the queue is non-empty,
dequeue one entry and run the registered callback, which is
`processEmail` — a total function in the model, so the catch/re-enqueue
branch of the queue loop is never taken on a constructed service. -/
def EmailService.drainStep (svc : EmailService) : EmailService :=
  if svc.queue.processing then
    match svc.queue.queue with
    | [] => svc
    | item :: rest =>
      let svc1 : EmailService := { svc with queue := { svc.queue with queue := rest } }
      (svc1.processEmail item.email).2
  else svc

/-- The `EmailService.clear`: wipe the status map, the sent-set and the queue;
reset every breaker. -/
def EmailService.clear (svc : EmailService) : EmailService :=
  { svc with
      statusMap := []
      sentEmails := []
      queue := { svc.queue with queue := [] }
      breakerMap := svc.breakerMap.map (fun kb => (kb.1, kb.2.reset)) }

/-- The public operations whose interleavings generate the reachable states
of the engine (the drain step stands for one cycle of the background loop). -/
inductive ServiceOp where
  | send (email : EmailRequest)
  | queueOp (email : EmailRequest) (priority : Int)
  | drain
  | clearOp
deriving Repr, DecidableEq

/-- Applies one public operation to the service state. -/
def applyOp (svc : EmailService) : ServiceOp → EmailService
  | ServiceOp.send e => (svc.sendEmail e).2
  | ServiceOp.queueOp e p => (svc.queueEmail e p).2
  | ServiceOp.drain => svc.drainStep
  | ServiceOp.clearOp => svc.clear

/-- Runs a sequence of public operations from a given state. -/
def runOps (svc : EmailService) (ops : List ServiceOp) : EmailService :=
  ops.foldl applyOp svc

/-- Repeated `sendEmail` calls with the same request. -/
def iterSend (email : EmailRequest) : Nat → EmailService → EmailService
  | 0, svc => svc
  | n + 1, svc => iterSend email n (svc.sendEmail email).2

/-! ### Basic lemmas about the map/set models -/

/-! ### Sample requests, providers and states used by concrete scenarios -/

/-- A sample request used by the concrete scenarios below. -/
def demoEmail : EmailRequest := ⟨"e1", "u@example.com", "subj", "body"⟩

/-- A provider whose sends always succeed. -/
def demoOkProvider : EmailProvider := ⟨"ProviderOk", fun _ => none, true⟩

/-- A service state in which `demoEmail` has already been delivered. -/
def demoSentService : EmailService :=
  runOps (mkEmailService [demoOkProvider] {}) [ServiceOp.send demoEmail]

/-- A provider whose send throws on the first call and succeeds afterwards. -/
def demoFlipProvider : EmailProvider :=
  ⟨"ProviderFlip", fun i => if i = 0 then some "early error" else none, true⟩

/-- The queue is sorted by descending priority: every later entry has
priority at most that of every earlier entry. -/
def SortedDesc (l : List EmailQueueItem) : Prop :=
  l.Pairwise (fun a b => b.priority ≤ a.priority)

instance (l : List EmailQueueItem) : Decidable (SortedDesc l) :=
  decidable_of_iff (l.Pairwise fun a b => b.priority ≤ a.priority)
    (by unfold SortedDesc; exact Iff.rfl)

/-- The queue obtained by enqueuing a priority-1 request and then a
priority-10 request into an empty queue. -/
def demoPrioQueue : EmailQueue :=
  ((({ maxSize := 1000 } : EmailQueue).enqueue ⟨"low", "", "", ""⟩ 1 0).2.enqueue
    ⟨"high", "", "", ""⟩ 10 1).2

/-- A two-entry sorted queue used to witness the ordering theorem. -/
def demoSortedQueue : EmailQueue where
  maxSize := 10
  queue := [⟨⟨"a", "", "", ""⟩, 7, 0, 0⟩, ⟨⟨"b", "", "", ""⟩, 3, 1, 0⟩]

/-- The fields of the engine state that the retry/fallback pipeline never
touches. -/
def CoreEq (a b : EmailService) : Prop :=
  a.statusMap = b.statusMap ∧ a.queue = b.queue ∧ a.rateLimiter = b.rateLimiter ∧
    a.providers = b.providers ∧ a.config = b.config ∧ a.processing = b.processing

/-- Component form of the sent-set/status-map consistency invariant: every
id in the sent-set has an entry in the map. -/
def SentConsistentL (sent : List String) (m : List (String × EmailStatus)) : Prop :=
  ∀ x ∈ sent, ∃ st, mapGet m x = some st

/-- Component form of the stronger invariant: every id in the sent-set has a
map entry whose state is `sent`. -/
def SentStatusSentL (sent : List String) (m : List (String × EmailStatus)) : Prop :=
  ∀ x ∈ sent, ∃ st, mapGet m x = some st ∧ st.status = EmailState.sent

/-- Every id in the engine's sent-set has a status-map entry. -/
def SentConsistent (svc : EmailService) : Prop :=
  SentConsistentL svc.sentEmails svc.statusMap

/-- Every id in the engine's sent-set has a status-map entry in state `sent`. -/
def SentStatusSent (svc : EmailService) : Prop :=
  SentStatusSentL svc.sentEmails svc.statusMap

/-- A provider that succeeds on its first send and throws afterwards. -/
def demoFlakyProvider : EmailProvider :=
  ⟨"ProviderFlaky", fun i => if i = 0 then none else some "late failure", true⟩

/-- Queue a request, deliver it synchronously, then let the drain loop
process the stale queue entry. -/
def demoDrainClash : EmailService :=
  runOps (mkEmailService [demoFlakyProvider] {})
    [ServiceOp.queueOp demoEmail 0, ServiceOp.send demoEmail, ServiceOp.drain]

/-- A provider whose every `send` call throws. -/
def ProviderAlwaysFails (p : EmailProvider) : Prop :=
  ∀ i, (p.sendResult i).isSome = true

/-- A provider whose every `send` call returns normally. -/
def ProviderAlwaysSucceeds (p : EmailProvider) : Prop :=
  ∀ i, p.sendResult i = none

/-- A second always-failing provider, distinctly named. -/
def demoBadProviderB : EmailProvider := ⟨"ProviderBadB", fun _ => some "down", true⟩

/-- An always-failing provider. -/
def demoBadProvider : EmailProvider := ⟨"ProviderBad", fun _ => some "boom", true⟩

/-- An always-succeeding provider with a distinct name. -/
def demoGoodProvider : EmailProvider := ⟨"ProviderGood", fun _ => none, true⟩

/-! ### Theorems -/

theorem mapGet_mapSet_self {α : Type} (m : List (String × α)) (k : String) (v : α) :
    mapGet (mapSet m k v) k = some v := by
  induction m with
  | nil => simp [mapSet, mapGet]
  | cons hd tl ih =>
    obtain ⟨k', v'⟩ := hd
    by_cases h : k' = k <;> simp [mapSet, mapGet, h, ih]

theorem mapGet_mapSet_ne {α : Type} (m : List (String × α)) (k j : String) (v : α)
    (h : j ≠ k) : mapGet (mapSet m k v) j = mapGet m j := by
  have hkj : k ≠ j := fun e => h e.symm
  induction m with
  | nil => simp [mapSet, mapGet, hkj]
  | cons hd tl ih =>
    obtain ⟨k', v'⟩ := hd
    by_cases hk : k' = k
    · subst hk
      simp [mapSet, mapGet, hkj]
    · by_cases hj : k' = j <;> simp [mapSet, mapGet, hk, hj, ih, h]

theorem mem_setAdd {s : List String} {x y : String} :
    y ∈ setAdd s x ↔ y ∈ s ∨ y = x := by
  by_cases h : x ∈ s
  · simp only [setAdd, if_pos h]
    exact ⟨Or.inl, fun hc => hc.elim id (fun e => e ▸ h)⟩
  · simp [setAdd, if_neg h]

theorem setAdd_self_mem (s : List String) (x : String) : x ∈ setAdd s x :=
  mem_setAdd.mpr (Or.inr rfl)

/-! ### C1: idempotency of `sendEmail` on delivered ids -/

/-- Claim C1: once a request id is in the sent-set, `sendEmail` returns the
stored status and performs no state change whatsoever (in particular the
rate limiter is untouched and no provider is invoked), and this holds for
arbitrarily many repeated calls. -/
theorem sendEmail_idempotent (svc : EmailService) (email : EmailRequest)
    (h : email.id ∈ svc.sentEmails) :
    svc.sendEmail email = (mapGet svc.statusMap email.id, svc) ∧
    ∀ n : Nat, iterSend email n svc = svc := by
  have hsend : svc.sendEmail email = (mapGet svc.statusMap email.id, svc) := by
    simp [EmailService.sendEmail, h]
  refine ⟨hsend, fun n => ?_⟩
  induction n with
  | zero => rfl
  | succ k ih =>
    calc iterSend email (k + 1) svc = iterSend email k (svc.sendEmail email).2 := rfl
      _ = iterSend email k svc := by rw [hsend]
      _ = svc := ih

theorem sendEmail_idempotent_witness :
    demoEmail.id ∈ demoSentService.sentEmails ∧
    demoSentService.sendEmail demoEmail =
      (mapGet demoSentService.statusMap demoEmail.id, demoSentService) := by
  have h : demoEmail.id ∈ demoSentService.sentEmails := by decide
  exact ⟨h, (sendEmail_idempotent demoSentService demoEmail h).1⟩

/-! ### C2: terminality of `sent` and non-terminality of `failed` -/

/-- Claim C2 counterexample: with a single provider that fails its first
send and succeeds afterwards, and `maxRetries = 1`, the first `sendEmail`
leaves the id in terminal-looking state `failed`; a second `sendEmail` with
the same id re-processes the request and the stored state changes to
`sent` — so `failed` is not terminal and new attempts are recorded. -/
theorem failed_not_terminal_cex :
    (mapGet (runOps (mkEmailService [demoFlipProvider] { maxRetries := 1 })
        [ServiceOp.send demoEmail]).statusMap demoEmail.id).map
        EmailStatus.status = some EmailState.failed ∧
    (mapGet (runOps (mkEmailService [demoFlipProvider] { maxRetries := 1 })
        [ServiceOp.send demoEmail, ServiceOp.send demoEmail]).statusMap demoEmail.id).map
        EmailStatus.status = some EmailState.sent := by
  constructor <;> decide

/-- Claim C2 (amended): only `sent` is terminal with respect to subsequent
public calls — once the id is in the sent-set (which is exactly when its
status is `sent`, the delivery path being the only writer of that set),
both `sendEmail` and `queueEmail` leave the whole engine state unchanged,
so the stored state never changes and no attempt is appended.  A `failed`
status enjoys no such guarantee. -/
theorem terminal_sent_preserved (svc : EmailService) (email : EmailRequest)
    (p : Int) (h : email.id ∈ svc.sentEmails) :
    (svc.sendEmail email).2 = svc ∧ (svc.queueEmail email p).2 = svc := by
  constructor
  · simp [EmailService.sendEmail, h]
  · simp [EmailService.queueEmail, h]

theorem terminal_sent_preserved_witness :
    demoEmail.id ∈ demoSentService.sentEmails ∧
    (demoSentService.sendEmail demoEmail).2 = demoSentService ∧
    (demoSentService.queueEmail demoEmail 5).2 = demoSentService := by
  have h : demoEmail.id ∈ demoSentService.sentEmails := by decide
  exact ⟨h, terminal_sent_preserved demoSentService demoEmail 5 h⟩

/-! ### C3: the queue redelivery cap never takes effect -/

/-- Claim C3 is contradicted by the code: on callback failure the request is
re-enqueued through `enqueue`, which builds a fresh entry with
`retryCount := 0`, so the dequeued entry's redelivery count is 0 at every
cycle and the cap of 3 never fires.  A persistently failing callback
redelivers the entry at every cycle, without bound: after any number of
failing cycles the queue still holds the entry (with count 0) instead of
having dropped it after 3 redeliveries. -/
theorem queue_redelivery_uncapped :
    ∀ n : Nat,
      (EmailQueue.processIter
          { maxSize := 1000, queue := [⟨demoEmail, 0, 0, 0⟩] }
          (fun _ => true) 0 n).queue = [⟨demoEmail, 0, 0, 0⟩] := by
  intro n
  induction n with
  | zero => rfl
  | succ k ih =>
    have hstep :
        EmailQueue.processOnce
            { maxSize := 1000, queue := [⟨demoEmail, 0, 0, 0⟩] }
            (fun _ => true) 0 =
          { maxSize := 1000, queue := [⟨demoEmail, 0, 0, 0⟩] } := by decide
    calc (EmailQueue.processIter
            { maxSize := 1000, queue := [⟨demoEmail, 0, 0, 0⟩] }
            (fun _ => true) 0 (k + 1)).queue
        = (EmailQueue.processIter
            { maxSize := 1000, queue := [⟨demoEmail, 0, 0, 0⟩] }
            (fun _ => true) 0 k).queue := by
          rw [EmailQueue.processIter, hstep]
      _ = [⟨demoEmail, 0, 0, 0⟩] := ih

/-! ### C6: the circuit-breaker gate -/

/-- Claim C6: with the failure count at or above the threshold, `isOpen`
reports open (leaving the breaker unchanged) at every evaluation whose
elapsed time since the last failure is below the timeout, and at an
evaluation at or past the timeout it resets the failure count to 0 and
reports closed; `recordFailure` increments the count by one per call, so
`threshold` recorded failures reach the gate. -/
theorem circuitBreaker_gate (b : CircuitBreaker) (now : Nat)
    (h : b.threshold ≤ b.failures) :
    (now - b.lastFailureTime < b.timeout → b.isOpen now = (true, b)) ∧
    (b.timeout ≤ now - b.lastFailureTime →
      b.isOpen now = (false, { b with failures := 0 })) ∧
    (∀ (b0 : CircuitBreaker) (times : List Nat),
      (times.foldl CircuitBreaker.recordFailure b0).failures =
        b0.failures + times.length) := by
  refine ⟨?_, ?_, ?_⟩
  · intro he
    simp [CircuitBreaker.isOpen, h, he]
  · intro he
    simp [CircuitBreaker.isOpen, CircuitBreaker.reset, h, Nat.not_lt.mpr he]
  · intro b0 times
    induction times generalizing b0 with
    | nil => simp
    | cons t ts ih =>
      simp [CircuitBreaker.recordFailure, ih, Nat.add_assoc, Nat.add_comm 1]

theorem circuitBreaker_gate_witness :
    CircuitBreaker.isOpen ⟨3, 10, 3, 100⟩ 105 = (true, ⟨3, 10, 3, 100⟩) ∧
    CircuitBreaker.isOpen ⟨3, 10, 3, 100⟩ 110 = (false, ⟨3, 10, 0, 100⟩) := by
  exact ⟨(circuitBreaker_gate ⟨3, 10, 3, 100⟩ 105 (by decide)).1 (by decide),
         (circuitBreaker_gate ⟨3, 10, 3, 100⟩ 110 (by decide)).2.1 (by decide)⟩

/-! ### C9: queue-full rejection -/

/-- Claim C9: an `enqueue` while the queue is at (or beyond) capacity
returns `false` and leaves the queue unchanged — in particular the size
stays at `queueMaxSize`; and a `queueEmail` whose enqueue fails stores and
returns a `failed` status with error "Queue is full" (every outcome is a
returned status value; the operations are total, no exception escapes). -/
theorem queue_full_rejection :
    (∀ (q : EmailQueue) (e : EmailRequest) (p : Int) (now : Nat),
      q.maxSize ≤ q.queue.length → q.enqueue e p now = (false, q)) ∧
    (∀ (svc : EmailService) (e : EmailRequest) (p : Int),
      e.id ∉ svc.sentEmails → svc.queue.maxSize ≤ svc.queue.queue.length →
      ∃ st, (svc.queueEmail e p).1 = some st ∧
        st.status = EmailState.failed ∧
        st.error = some "Queue is full" ∧
        mapGet (svc.queueEmail e p).2.statusMap e.id = some st ∧
        (svc.queueEmail e p).2.queue.queue = svc.queue.queue) := by
  have henq : ∀ (q : EmailQueue) (e : EmailRequest) (p : Int) (now : Nat),
      q.maxSize ≤ q.queue.length → q.enqueue e p now = (false, q) := by
    intro q e p now hfull
    simp [EmailQueue.enqueue, hfull]
  refine ⟨henq, ?_⟩
  intro svc e p hid hfull
  refine ⟨{ status := EmailState.failed, error := some "Queue is full",
            timestamp := svc.clock, retryCount := 0, attempts := [] }, ?_⟩
  simp only [EmailService.queueEmail, if_neg hid, henq _ _ _ _ hfull]
  by_cases hp : svc.processing <;>
    simp [hp, mapGet_mapSet_self]

theorem queue_full_rejection_witness :
    ∃ st, ((mkEmailService [demoOkProvider] { queueMaxSize := 0 }).queueEmail
        demoEmail 0).1 = some st ∧
      st.status = EmailState.failed ∧
      st.error = some "Queue is full" ∧
      mapGet ((mkEmailService [demoOkProvider] { queueMaxSize := 0 }).queueEmail
        demoEmail 0).2.statusMap demoEmail.id = some st ∧
      ((mkEmailService [demoOkProvider] { queueMaxSize := 0 }).queueEmail
        demoEmail 0).2.queue.queue =
        (mkEmailService [demoOkProvider] { queueMaxSize := 0 }).queue.queue :=
  queue_full_rejection.2 (mkEmailService [demoOkProvider] { queueMaxSize := 0 })
    demoEmail 0 (by decide) (by decide)

/-! ### C7: priority-queue ordering -/

theorem insertByPriority_split (item : EmailQueueItem) (l : List EmailQueueItem) :
    insertByPriority item l =
      l.takeWhile (fun x => ! decide (x.priority < item.priority)) ++
        item :: l.dropWhile (fun x => ! decide (x.priority < item.priority)) := by
  induction l with
  | nil => rfl
  | cons x xs ih =>
    by_cases h : x.priority < item.priority <;>
      simp [insertByPriority, List.takeWhile_cons, List.dropWhile_cons, h, ih]

theorem mem_insertByPriority {item y : EmailQueueItem} {l : List EmailQueueItem} :
    y ∈ insertByPriority item l ↔ y = item ∨ y ∈ l := by
  induction l with
  | nil => simp [insertByPriority]
  | cons x xs ih =>
    by_cases h : x.priority < item.priority
    · simp [insertByPriority, h]
    · simp [insertByPriority, h, ih]
      tauto

theorem sortedDesc_insertByPriority (item : EmailQueueItem)
    {l : List EmailQueueItem} (h : SortedDesc l) :
    SortedDesc (insertByPriority item l) := by
  unfold SortedDesc at h ⊢
  induction l with
  | nil => simp [insertByPriority]
  | cons x xs ih =>
    rcases List.pairwise_cons.mp h with ⟨hx, hs⟩
    by_cases hlt : x.priority < item.priority
    · simp only [insertByPriority, if_pos hlt]
      refine List.pairwise_cons.mpr ⟨?_, h⟩
      intro y hy
      rcases List.mem_cons.mp hy with rfl | hy
      · exact le_of_lt hlt
      · exact le_trans (hx y hy) (le_of_lt hlt)
    · simp only [insertByPriority, if_neg hlt]
      refine List.pairwise_cons.mpr ⟨?_, ih hs⟩
      intro y hy
      rcases mem_insertByPriority.mp hy with rfl | hy
      · exact Int.not_lt.mp hlt
      · exact hx y hy

/-- Claim C7: every (non-rejected) `enqueue` inserts the new entry after all
entries of priority ≥ its own and before all entries of strictly smaller
priority (so the relative order of existing entries — in particular FIFO
within a priority tier — is preserved), keeps the queue sorted by
descending priority, and `dequeue` removes and returns the head, which has
maximal priority; enqueuing priority 1 then priority 10 and dequeuing twice
yields the priority-10 item first and the priority-1 item second. -/
theorem queue_priority_ordering :
    (∀ (q : EmailQueue) (e : EmailRequest) (p : Int) (now : Nat),
      q.queue.length < q.maxSize →
      (q.enqueue e p now).1 = true ∧
      (q.enqueue e p now).2.queue =
        q.queue.takeWhile (fun x => ! decide (x.priority < p)) ++
          ⟨e, p, now, 0⟩ :: q.queue.dropWhile (fun x => ! decide (x.priority < p)) ∧
      (SortedDesc q.queue → SortedDesc (q.enqueue e p now).2.queue)) ∧
    (∀ (q : EmailQueue) (x : EmailQueueItem) (xs : List EmailQueueItem),
      SortedDesc q.queue → q.queue = x :: xs →
      q.dequeue = (some x, { q with queue := xs }) ∧
      ∀ y ∈ q.queue, y.priority ≤ x.priority) ∧
    (demoPrioQueue.dequeue.1.map EmailQueueItem.priority = some 10 ∧
      demoPrioQueue.dequeue.2.dequeue.1.map EmailQueueItem.priority = some 1) := by
  refine ⟨?_, ?_, ?_⟩
  · intro q e p now hroom
    have hne : ¬ q.maxSize ≤ q.queue.length := Nat.not_le.mpr hroom
    refine ⟨by simp [EmailQueue.enqueue, hne], ?_, ?_⟩
    · simp [EmailQueue.enqueue, hne, insertByPriority_split]
    · intro hs
      simp only [EmailQueue.enqueue, if_neg hne]
      exact sortedDesc_insertByPriority _ hs
  · intro q x xs hs hq
    refine ⟨by simp [EmailQueue.dequeue, hq], ?_⟩
    intro y hy
    rw [hq] at hy hs
    rcases List.mem_cons.mp hy with rfl | hy
    · exact le_refl _
    · exact (List.pairwise_cons.mp hs).1 y hy
  · constructor <;> decide

theorem queue_priority_ordering_witness :
    (demoSortedQueue.enqueue ⟨"c", "", "", ""⟩ 5 2).2.queue =
      [⟨⟨"a", "", "", ""⟩, 7, 0, 0⟩, ⟨⟨"c", "", "", ""⟩, 5, 2, 0⟩,
        ⟨⟨"b", "", "", ""⟩, 3, 1, 0⟩] ∧
    SortedDesc (demoSortedQueue.enqueue ⟨"c", "", "", ""⟩ 5 2).2.queue := by
  have h := queue_priority_ordering.1 demoSortedQueue ⟨"c", "", "", ""⟩ 5 2 (by decide)
  refine ⟨?_, h.2.2 (by decide)⟩
  rw [h.2.1]
  decide

/-! ### State lemmas for the delivery pipeline -/

theorem mapSet_mapSet {α : Type} (m : List (String × α)) (k : String) (v w : α) :
    mapSet (mapSet m k v) k w = mapSet m k w := by
  induction m with
  | nil => simp [mapSet]
  | cons hd tl ih =>
    obtain ⟨k', v'⟩ := hd
    by_cases h : k' = k
    · subst h
      simp [mapSet]
    · simp [mapSet, h, ih]

theorem coreEq_refl (a : EmailService) : CoreEq a a :=
  ⟨rfl, rfl, rfl, rfl, rfl, rfl⟩

theorem coreEq_trans {a b c : EmailService} (h1 : CoreEq a b) (h2 : CoreEq b c) :
    CoreEq a c := by
  obtain ⟨s1, q1, r1, p1, c1, f1⟩ := h1
  obtain ⟨s2, q2, r2, p2, c2, f2⟩ := h2
  exact ⟨s1.trans s2, q1.trans q2, r1.trans r2, p1.trans p2, c1.trans c2, f1.trans f2⟩

/-- The `tryProvider` touches only the clock, the send counter, the breaker map
and (on success) the sent-set; success marks the status `sent` and adds the
id to the sent-set, failure leaves both alone and keeps the status state. -/
theorem tryProvider_state (p : EmailProvider) (email : EmailRequest) :
    ∀ (fuel attempt : Nat) (status : EmailStatus) (svc : EmailService),
      CoreEq (tryProvider p email fuel attempt status svc).2.2 svc ∧
      ((tryProvider p email fuel attempt status svc).1 = true →
        (tryProvider p email fuel attempt status svc).2.2.sentEmails =
          setAdd svc.sentEmails email.id ∧
        (tryProvider p email fuel attempt status svc).2.1.status = EmailState.sent) ∧
      ((tryProvider p email fuel attempt status svc).1 = false →
        (tryProvider p email fuel attempt status svc).2.2.sentEmails = svc.sentEmails ∧
        (tryProvider p email fuel attempt status svc).2.1.status = status.status) := by
  intro fuel
  induction fuel with
  | zero =>
    intro attempt status svc
    refine ⟨coreEq_refl _, ?_, ?_⟩ <;> simp [tryProvider]
  | succ n ih =>
    intro attempt status svc
    cases hres : p.sendResult svc.sendCalls with
    | none =>
      refine ⟨?_, ?_, ?_⟩ <;> simp [tryProvider, hres, CoreEq]
    | some err =>
      cases hb : mapGet svc.breakerMap p.name with
      | none =>
        simp only [tryProvider, hres, hb]
        exact ih _ _ _
      | some b =>
        simp only [tryProvider, hres, hb]
        exact ih _ _ _

/-- The provider loop touches only the clock, the send counter, the breaker
map and (on success) the sent-set; the success/failure flag determines
whether the id was added to the sent-set and whether the returned status is
`sent`. -/
theorem loopProviders_state (email : EmailRequest) :
    ∀ (ps : List EmailProvider) (status : EmailStatus) (svc : EmailService),
      CoreEq (loopProviders email ps status svc).2.2 svc ∧
      ((loopProviders email ps status svc).1 = true →
        (loopProviders email ps status svc).2.2.sentEmails =
          setAdd svc.sentEmails email.id ∧
        (loopProviders email ps status svc).2.1.status = EmailState.sent) ∧
      ((loopProviders email ps status svc).1 = false →
        (loopProviders email ps status svc).2.2.sentEmails = svc.sentEmails ∧
        (loopProviders email ps status svc).2.1.status = status.status) := by
  intro ps
  induction ps with
  | nil =>
    intro status svc
    refine ⟨coreEq_refl _, ?_, ?_⟩ <;> simp [loopProviders]
  | cons p rest ih =>
    intro status svc
    cases hb : mapGet svc.breakerMap p.name with
    | none =>
      simp only [loopProviders, hb]
      exact ih _ _
    | some b =>
      simp only [loopProviders, hb]
      split
      · -- circuit breaker open: skip this provider
        refine ⟨coreEq_trans (ih _ _).1 ⟨rfl, rfl, rfl, rfl, rfl, rfl⟩, ?_, ?_⟩
        · intro h
          obtain ⟨e1, e2⟩ := (ih _ _).2.1 h
          exact ⟨e1.trans rfl, e2⟩
        · intro h
          obtain ⟨e1, e2⟩ := (ih _ _).2.2 h
          exact ⟨e1.trans rfl, e2⟩
      · split
        · -- healthy provider: run the retry loop
          split
          · next hty =>
            refine ⟨?_, ?_, ?_⟩
            · exact coreEq_trans (tryProvider_state p email _ _ _ _).1
                ⟨rfl, rfl, rfl, rfl, rfl, rfl⟩
            · intro _
              obtain ⟨e1, e2⟩ := (tryProvider_state p email _ _ _ _).2.1 hty
              exact ⟨e1.trans rfl, e2⟩
            · intro h
              simp at h
          · next hty =>
            rw [Bool.not_eq_true] at hty
            obtain ⟨f1, f2⟩ := (tryProvider_state p email _ _ _ _).2.2 hty
            refine ⟨coreEq_trans (ih _ _).1
              (coreEq_trans (tryProvider_state p email _ _ _ _).1
                ⟨rfl, rfl, rfl, rfl, rfl, rfl⟩), ?_, ?_⟩
            · intro h
              obtain ⟨e1, e2⟩ := (ih _ _).2.1 h
              exact ⟨e1.trans (by rw [f1]), e2⟩
            · intro h
              obtain ⟨e1, e2⟩ := (ih _ _).2.2 h
              exact ⟨e1.trans (f1.trans rfl), e2.trans f2⟩
        · -- unhealthy provider: skip
          refine ⟨coreEq_trans (ih _ _).1 ⟨rfl, rfl, rfl, rfl, rfl, rfl⟩, ?_, ?_⟩
          · intro h
            obtain ⟨e1, e2⟩ := (ih _ _).2.1 h
            exact ⟨e1.trans rfl, e2⟩
          · intro h
            obtain ⟨e1, e2⟩ := (ih _ _).2.2 h
            exact ⟨e1.trans rfl, e2⟩

/-- The `processEmail` rewrites the status-map entry of exactly the processed id
to the returned status. -/
theorem processEmail_statusMap (svc : EmailService) (email : EmailRequest) :
    (svc.processEmail email).2.statusMap =
      mapSet svc.statusMap email.id (svc.processEmail email).1 := by
  simp only [EmailService.processEmail]
  rw [(loopProviders_state email _ _ _).1.1]
  exact mapSet_mapSet _ _ _ _

/-- The provider loop either leaves the sent-set alone, or adds the id and
ends with a `sent` final status (also after the failed-overwrite step of
`processEmail`). -/
theorem loop_final_disjunction (email : EmailRequest) (ps : List EmailProvider)
    (status : EmailStatus) (svc : EmailService) (base : List String)
    (hbase : svc.sentEmails = base) :
    (loopProviders email ps status svc).2.2.sentEmails = base ∨
      ((loopProviders email ps status svc).2.2.sentEmails = setAdd base email.id ∧
        (if (loopProviders email ps status svc).1 then
            (loopProviders email ps status svc).2.1
          else
            { (loopProviders email ps status svc).2.1 with
                status := EmailState.failed
                error := some "All providers failed after retries" }).status =
          EmailState.sent) := by
  cases hok : (loopProviders email ps status svc).1 with
  | false =>
    left
    rw [((loopProviders_state email ps status svc).2.2 hok).1, hbase]
  | true =>
    right
    obtain ⟨e1, e2⟩ := (loopProviders_state email ps status svc).2.1 hok
    exact ⟨by rw [e1, hbase], e2⟩

/-- The `processEmail` either leaves the sent-set alone, or adds exactly the
processed id and returns a `sent` status. -/
theorem processEmail_sent (svc : EmailService) (email : EmailRequest) :
    (svc.processEmail email).2.sentEmails = svc.sentEmails ∨
      ((svc.processEmail email).2.sentEmails = setAdd svc.sentEmails email.id ∧
        (svc.processEmail email).1.status = EmailState.sent) := by
  simp only [EmailService.processEmail]
  exact loop_final_disjunction email _ _ _ _ rfl

theorem sentConsistentL_mapSet {s : List String} {m : List (String × EmailStatus)}
    (h : SentConsistentL s m) (k : String) (v : EmailStatus) :
    SentConsistentL s (mapSet m k v) := by
  intro x hx
  by_cases hxk : x = k
  · subst hxk
    exact ⟨v, mapGet_mapSet_self m x v⟩
  · obtain ⟨st, e⟩ := h x hx
    exact ⟨st, by rw [mapGet_mapSet_ne m k x v hxk, e]⟩

theorem sentConsistentL_setAdd {s : List String} {m : List (String × EmailStatus)}
    (h : SentConsistentL s m) (k : String) (v : EmailStatus) :
    SentConsistentL (setAdd s k) (mapSet m k v) := by
  intro x hx
  rcases mem_setAdd.mp hx with hxs | rfl
  · exact sentConsistentL_mapSet h k v x hxs
  · exact ⟨v, mapGet_mapSet_self m x v⟩

theorem sentStatusSentL_mapSet_not_mem {s : List String}
    {m : List (String × EmailStatus)} (h : SentStatusSentL s m) {k : String}
    (hk : k ∉ s) (v : EmailStatus) : SentStatusSentL s (mapSet m k v) := by
  intro x hx
  have hxk : x ≠ k := fun e => hk (e ▸ hx)
  obtain ⟨st, e1, e2⟩ := h x hx
  exact ⟨st, by rw [mapGet_mapSet_ne m k x v hxk, e1], e2⟩

theorem sentStatusSentL_setAdd {s : List String} {m : List (String × EmailStatus)}
    (h : SentStatusSentL s m) {k : String} {v : EmailStatus}
    (hv : v.status = EmailState.sent) :
    SentStatusSentL (setAdd s k) (mapSet m k v) := by
  intro x hx
  rcases mem_setAdd.mp hx with hxs | rfl
  · by_cases hxk : x = k
    · subst hxk
      exact ⟨v, mapGet_mapSet_self m x v, hv⟩
    · obtain ⟨st, e1, e2⟩ := h x hxs
      exact ⟨st, by rw [mapGet_mapSet_ne m k x v hxk, e1], e2⟩
  · exact ⟨v, mapGet_mapSet_self m x v, hv⟩

theorem sentConsistent_processEmail (svc : EmailService) (email : EmailRequest)
    (h : SentConsistent svc) : SentConsistent (svc.processEmail email).2 := by
  have hm := processEmail_statusMap svc email
  unfold SentConsistent
  rcases processEmail_sent svc email with hs | ⟨hs, _⟩
  · rw [hm, hs]
    exact sentConsistentL_mapSet h _ _
  · rw [hm, hs]
    exact sentConsistentL_setAdd h _ _

theorem sentStatusSent_processEmail (svc : EmailService) (email : EmailRequest)
    (h : SentStatusSent svc) (hid : email.id ∉ svc.sentEmails) :
    SentStatusSent (svc.processEmail email).2 := by
  have hm := processEmail_statusMap svc email
  unfold SentStatusSent
  rcases processEmail_sent svc email with hs | ⟨hs, hsent⟩
  · rw [hm, hs]
    exact sentStatusSentL_mapSet_not_mem h hid _
  · rw [hm, hs]
    exact sentStatusSentL_setAdd h hsent

theorem sentConsistent_applyOp (svc : EmailService) (op : ServiceOp)
    (h : SentConsistent svc) : SentConsistent (applyOp svc op) := by
  cases op with
  | send e =>
    by_cases hm : e.id ∈ svc.sentEmails
    · simp only [applyOp, EmailService.sendEmail, if_pos hm]
      exact h
    · simp only [applyOp, EmailService.sendEmail, if_neg hm]
      split
      · exact sentConsistent_processEmail _ e h
      · exact sentConsistentL_mapSet h _ _
  | queueOp e p =>
    by_cases hm : e.id ∈ svc.sentEmails
    · simp only [applyOp, EmailService.queueEmail, if_pos hm]
      exact h
    · simp only [applyOp, EmailService.queueEmail, if_neg hm]
      split
      · exact sentConsistentL_mapSet h _ _
      · exact sentConsistentL_mapSet h _ _
  | drain =>
    simp only [applyOp, EmailService.drainStep]
    split
    · split
      · exact h
      · exact sentConsistent_processEmail _ _ h
    · exact h
  | clearOp =>
    intro x hx
    exact absurd hx (List.not_mem_nil x)

theorem sentStatusSent_applyOp (svc : EmailService) (op : ServiceOp)
    (hnd : op ≠ ServiceOp.drain) (h : SentStatusSent svc) :
    SentStatusSent (applyOp svc op) := by
  cases op with
  | send e =>
    by_cases hm : e.id ∈ svc.sentEmails
    · simp only [applyOp, EmailService.sendEmail, if_pos hm]
      exact h
    · simp only [applyOp, EmailService.sendEmail, if_neg hm]
      split
      · exact sentStatusSent_processEmail _ e h hm
      · exact sentStatusSentL_mapSet_not_mem h hm _
  | queueOp e p =>
    by_cases hm : e.id ∈ svc.sentEmails
    · simp only [applyOp, EmailService.queueEmail, if_pos hm]
      exact h
    · simp only [applyOp, EmailService.queueEmail, if_neg hm]
      split
      · exact sentStatusSentL_mapSet_not_mem h hm _
      · exact sentStatusSentL_mapSet_not_mem h hm _
  | drain => exact absurd rfl hnd
  | clearOp =>
    intro x hx
    exact absurd hx (List.not_mem_nil x)

theorem sentConsistent_runOps (svc : EmailService) (ops : List ServiceOp)
    (h : SentConsistent svc) : SentConsistent (runOps svc ops) := by
  induction ops generalizing svc with
  | nil => exact h
  | cons op rest ih => exact ih _ (sentConsistent_applyOp svc op h)

theorem sentStatusSent_runOps (svc : EmailService) (ops : List ServiceOp)
    (hnd : ∀ op ∈ ops, op ≠ ServiceOp.drain) (h : SentStatusSent svc) :
    SentStatusSent (runOps svc ops) := by
  induction ops generalizing svc with
  | nil => exact h
  | cons op rest ih =>
    exact ih _ (fun o ho => hnd o (List.mem_cons_of_mem op ho))
      (sentStatusSent_applyOp svc op (hnd op (List.mem_cons_self op rest)) h)

/-- Claim C10 counterexample: the queue-drain callback invokes `processEmail`
directly, with no idempotency check, so a queue entry enqueued before the
id was delivered re-processes an already-sent id; if the provider now
fails, the status-map entry of an id in the sent-set ends in state
`failed`, not `sent`. -/
theorem sent_set_status_cex :
    demoEmail.id ∈ demoDrainClash.sentEmails ∧
    (mapGet demoDrainClash.statusMap demoEmail.id).map EmailStatus.status =
      some EmailState.failed := by
  constructor <;> decide

/-- Claim C10 (amended): in every state reachable through the public
operations, every id in the sent-set has an entry in the status map (so the
idempotency short-circuit always finds a Status to return); and in every
state reachable without a queue-drain cycle, that entry's state is `sent`.
A drain cycle that re-processes an already-sent id can overwrite the entry
to a non-`sent` state. -/
theorem sent_set_status_invariant (providers : List EmailProvider)
    (config : EmailServiceConfig) (ops : List ServiceOp) :
    SentConsistent (runOps (mkEmailService providers config) ops) ∧
    ((∀ op ∈ ops, op ≠ ServiceOp.drain) →
      SentStatusSent (runOps (mkEmailService providers config) ops)) := by
  constructor
  · exact sentConsistent_runOps _ ops
      (fun x hx => absurd hx (List.not_mem_nil x))
  · intro hnd
    exact sentStatusSent_runOps _ ops hnd
      (fun x hx => absurd hx (List.not_mem_nil x))

theorem sent_set_status_invariant_witness :
    SentStatusSent (runOps (mkEmailService [demoOkProvider] {})
      [ServiceOp.send demoEmail, ServiceOp.queueOp demoEmail 2]) :=
  (sent_set_status_invariant [demoOkProvider] {}
    [ServiceOp.send demoEmail, ServiceOp.queueOp demoEmail 2]).2 (by decide)

/-! ### C4 and C5: retry counting against failing/succeeding providers -/

/-- Running the full retry budget against an always-failing provider appends
exactly `fuel` failed attempts against that provider, reports no success,
leaves other providers' breakers untouched, keeps the config, and performs
exactly `fuel` send calls. -/
theorem tryProvider_allFail (p : EmailProvider) (email : EmailRequest)
    (hp : ProviderAlwaysFails p) :
    ∀ (fuel attempt : Nat) (status : EmailStatus) (svc : EmailService),
      (tryProvider p email fuel attempt status svc).1 = false ∧
      (∃ l, (tryProvider p email fuel attempt status svc).2.1.attempts =
          status.attempts ++ l ∧ l.length = fuel ∧
          ∀ a ∈ l, a.success = false ∧ a.provider = p.name) ∧
      (∀ nm, nm ≠ p.name →
        mapGet (tryProvider p email fuel attempt status svc).2.2.breakerMap nm =
          mapGet svc.breakerMap nm) ∧
      (tryProvider p email fuel attempt status svc).2.2.config = svc.config ∧
      (tryProvider p email fuel attempt status svc).2.2.sendCalls =
        svc.sendCalls + fuel := by
  intro fuel
  induction fuel with
  | zero =>
    intro attempt status svc
    exact ⟨rfl, ⟨[], by simp [tryProvider], by simp [tryProvider], by simp⟩,
      fun nm _ => rfl, rfl, rfl⟩
  | succ n ih =>
    intro attempt status svc
    obtain ⟨err, hres⟩ : ∃ e, p.sendResult svc.sendCalls = some e :=
      Option.isSome_iff_exists.mp (hp svc.sendCalls)
    cases hb : mapGet svc.breakerMap p.name with
    | none =>
      simp only [tryProvider, hres, hb]
      refine ⟨(ih _ _ _).1, ?_, ?_, (ih _ _ _).2.2.2.1, ?_⟩
      · obtain ⟨l, e1, e2, e3⟩ := (ih _ _ _).2.1
        refine ⟨({ provider := p.name, timestamp := svc.clock + 1, success := false, error := some err, duration := svc.clock + 1 - svc.clock } : EmailAttempt) :: l, ?_, ?_, ?_⟩
        · rw [e1]
          simp
        · simp [e2]
        · intro a ha
          rcases List.mem_cons.mp ha with rfl | ha
          · exact ⟨rfl, rfl⟩
          · exact e3 a ha
      · intro nm hnm
        exact ((ih _ _ _).2.2.1 nm hnm).trans rfl
      · refine ((ih _ _ _).2.2.2.2).trans ?_
        show svc.sendCalls + 1 + n = svc.sendCalls + (n + 1)
        omega
    | some b =>
      simp only [tryProvider, hres, hb]
      refine ⟨(ih _ _ _).1, ?_, ?_, (ih _ _ _).2.2.2.1, ?_⟩
      · obtain ⟨l, e1, e2, e3⟩ := (ih _ _ _).2.1
        refine ⟨({ provider := p.name, timestamp := svc.clock + 1, success := false, error := some err, duration := svc.clock + 1 - svc.clock } : EmailAttempt) :: l, ?_, ?_, ?_⟩
        · rw [e1]
          simp
        · simp [e2]
        · intro a ha
          rcases List.mem_cons.mp ha with rfl | ha
          · exact ⟨rfl, rfl⟩
          · exact e3 a ha
      · intro nm hnm
        exact ((ih _ _ _).2.2.1 nm hnm).trans
          (mapGet_mapSet_ne svc.breakerMap p.name nm _ hnm)
      · refine ((ih _ _ _).2.2.2.2).trans ?_
        show svc.sendCalls + 1 + n = svc.sendCalls + (n + 1)
        omega

/-- One attempt against an always-succeeding provider (with at least one
retry available) succeeds immediately: one successful attempt is appended,
the status becomes `sent` with this provider's name, and exactly one send
call is made. -/
theorem tryProvider_succeeds (p : EmailProvider) (email : EmailRequest)
    (hp : ProviderAlwaysSucceeds p) (fuel attempt : Nat) (status : EmailStatus)
    (svc : EmailService) (hf : 1 ≤ fuel) :
    (tryProvider p email fuel attempt status svc).1 = true ∧
    (∃ a, (tryProvider p email fuel attempt status svc).2.1.attempts =
        status.attempts ++ [a] ∧ a.success = true ∧ a.provider = p.name) ∧
    (tryProvider p email fuel attempt status svc).2.1.status = EmailState.sent ∧
    (tryProvider p email fuel attempt status svc).2.1.provider = some p.name ∧
    (tryProvider p email fuel attempt status svc).2.1.retryCount = attempt ∧
    (tryProvider p email fuel attempt status svc).2.2.config = svc.config ∧
    (tryProvider p email fuel attempt status svc).2.2.sendCalls =
      svc.sendCalls + 1 := by
  cases fuel with
  | zero => omega
  | succ n =>
    refine ⟨?_, ⟨({ provider := p.name, timestamp := svc.clock + 1, success := true, duration := svc.clock + 1 - svc.clock } : EmailAttempt), ?_, ?_, ?_⟩, ?_, ?_, ?_, ?_, ?_⟩ <;>
      simp [tryProvider, hp svc.sendCalls]

/-- When every provider in the list is healthy, always fails, has a distinct
name and a closed breaker, the provider loop fails and appends exactly
`providers.length * maxRetries` failed attempts (each provider consumes its
full retry budget; the breaker check, made once per provider before its
retries, sees the still-closed breaker). -/
theorem loopProviders_allFail (email : EmailRequest) :
    ∀ (ps : List EmailProvider) (status : EmailStatus) (svc : EmailService),
      (∀ p ∈ ps, p.healthy = true ∧ ProviderAlwaysFails p) →
      (ps.map EmailProvider.name).Nodup →
      (∀ p ∈ ps, ∃ b, mapGet svc.breakerMap p.name = some b ∧
        b.failures < b.threshold) →
      (loopProviders email ps status svc).1 = false ∧
      ∃ l, (loopProviders email ps status svc).2.1.attempts =
          status.attempts ++ l ∧
        l.length = ps.length * svc.config.maxRetries ∧
        ∀ a ∈ l, a.success = false := by
  intro ps
  induction ps with
  | nil =>
    intro status svc _ _ _
    exact ⟨rfl, [], by simp [loopProviders], by simp, by simp⟩
  | cons p rest ih =>
    intro status svc hall hnodup hbrk
    obtain ⟨b, hbm, hbf⟩ := hbrk p (List.mem_cons_self p rest)
    have hopen : b.isOpen svc.clock = (false, b) := by
      simp [CircuitBreaker.isOpen, Nat.not_le.mpr hbf]
    have hhealthy : p.healthy = true := (hall p (List.mem_cons_self p rest)).1
    have hpfail : ProviderAlwaysFails p := (hall p (List.mem_cons_self p rest)).2
    have hnd : (∀ x ∈ rest, ¬ x.name = p.name) ∧
        (List.map EmailProvider.name rest).Nodup := by
      simpa using hnodup
    have hF := tryProvider_allFail p email hpfail svc.config.maxRetries 0 status
      { svc with clock := svc.clock + 1, breakerMap := mapSet svc.breakerMap p.name b }
    set svc2 : EmailService :=
      { svc with clock := svc.clock + 1, breakerMap := mapSet svc.breakerMap p.name b }
      with hsvc2
    set t := tryProvider p email svc.config.maxRetries 0 status svc2 with ht
    have hbrk2 : ∀ q ∈ rest, ∃ b', mapGet t.2.2.breakerMap q.name = some b' ∧
        b'.failures < b'.threshold := by
      intro q hq
      obtain ⟨b', hb', hbf'⟩ := hbrk q (List.mem_cons_of_mem p hq)
      have hqne : q.name ≠ p.name := hnd.1 q hq
      refine ⟨b', ?_, hbf'⟩
      rw [hF.2.2.1 q.name hqne]
      exact (mapGet_mapSet_ne svc.breakerMap p.name q.name b hqne).trans hb'
    have hA := ih t.2.1 t.2.2 (fun q hq => hall q (List.mem_cons_of_mem p hq))
      hnd.2 hbrk2
    simp only [loopProviders, hbm, hopen, hhealthy]
    rw [← hsvc2, ← ht, hF.1]
    simp only [Bool.false_eq_true, if_false, eq_self_iff_true, if_true]
    obtain ⟨hA1, lr, ea1, ea2, ea3⟩ := hA
    obtain ⟨lf, ef1, ef2, ef3⟩ := hF.2.1
    refine ⟨hA1, lf ++ lr, ?_, ?_, ?_⟩
    · rw [ea1, ef1, List.append_assoc]
    · rw [List.length_append, ef2, ea2, hF.2.2.2.1]
      show svc.config.maxRetries + rest.length * svc.config.maxRetries =
        (rest.length + 1) * svc.config.maxRetries
      rw [Nat.succ_mul]
      omega
    · intro a ha
      rcases List.mem_append.mp ha with ha | ha
      · exact (ef3 a ha).1
      · exact ea3 a ha

/-- The `processEmail` against a set of healthy, always-failing,
distinctly-named providers with closed breakers: terminal `failed`, the
generic exhaustion error, and `providers.length * maxRetries` attempts. -/
theorem processEmail_allFail (svc : EmailService) (email : EmailRequest)
    (hall : ∀ p ∈ svc.providers, p.healthy = true ∧ ProviderAlwaysFails p)
    (hnames : (svc.providers.map EmailProvider.name).Nodup)
    (hbrk : ∀ p ∈ svc.providers, ∃ b, mapGet svc.breakerMap p.name = some b ∧
      b.failures < b.threshold) :
    (svc.processEmail email).1.status = EmailState.failed ∧
    (svc.processEmail email).1.error = some "All providers failed after retries" ∧
    (svc.processEmail email).1.attempts.length =
      svc.providers.length * svc.config.maxRetries := by
  have hL := loopProviders_allFail email svc.providers
    ({ status := EmailState.pending, timestamp := svc.clock, retryCount := 0, attempts := [] } : EmailStatus)
    ({ svc with statusMap := mapSet svc.statusMap email.id { status := EmailState.pending, timestamp := svc.clock, retryCount := 0, attempts := [] }, clock := svc.clock + 1 } : EmailService)
    hall hnames hbrk
  obtain ⟨h1, l, e1, e2, e3⟩ := hL
  simp only [EmailService.processEmail]
  rw [h1]
  simp only [Bool.false_eq_true, if_false]
  refine ⟨by trivial, by trivial, ?_⟩
  rw [e1]
  simpa using e2

theorem foldl_mapSet_const (fresh : CircuitBreaker) :
    ∀ (ps : List EmailProvider) (m : List (String × CircuitBreaker)) (nm : String),
      (mapGet m nm = some fresh ∨ nm ∈ ps.map EmailProvider.name) →
      mapGet (ps.foldl (fun acc p => mapSet acc p.name fresh) m) nm = some fresh := by
  intro ps
  induction ps with
  | nil =>
    intro m nm h
    rcases h with h | h
    · exact h
    · simp at h
  | cons p rest ih =>
    intro m nm h
    simp only [List.foldl_cons]
    apply ih
    rcases h with h | h
    · left
      by_cases he : nm = p.name
      · subst he
        exact mapGet_mapSet_self m p.name fresh
      · rw [mapGet_mapSet_ne m p.name nm fresh he]
        exact h
    · rcases (by simpa using h : nm = p.name ∨ ∃ a ∈ rest, a.name = nm) with
        he | ⟨a, ha, hae⟩
      · left
        rw [he]
        exact mapGet_mapSet_self m p.name fresh
      · right
        rw [← hae]
        exact List.mem_map_of_mem EmailProvider.name ha

/-- The constructor registers one fresh breaker per provider name. -/
theorem mkEmailService_breaker (providers : List EmailProvider)
    (config : EmailServiceConfig) :
    ∀ p ∈ providers,
      mapGet (mkEmailService providers config).breakerMap p.name =
        some { threshold := config.circuitBreakerThreshold,
               timeout := config.circuitBreakerTimeoutMs } := by
  intro p hp
  exact foldl_mapSet_const _ providers [] p.name
    (Or.inr (List.mem_map_of_mem EmailProvider.name hp))

/-- Claim C5: for a freshly constructed service whose providers are all
healthy, always fail, and carry distinct names, with a positive breaker
threshold (so every breaker is closed at the start of processing),
processing yields a terminal `failed` Status with error "All providers
failed after retries" and exactly `providers.length * maxRetries`
attempts — each provider receives its full retry budget. -/
theorem retry_exhaustion_all_fail (ps : List EmailProvider)
    (config : EmailServiceConfig) (email : EmailRequest)
    (hall : ∀ p ∈ ps, p.healthy = true ∧ ProviderAlwaysFails p)
    (hnames : (ps.map EmailProvider.name).Nodup)
    (hth : 1 ≤ config.circuitBreakerThreshold) :
    ((mkEmailService ps config).processEmail email).1.status = EmailState.failed ∧
    ((mkEmailService ps config).processEmail email).1.error =
      some "All providers failed after retries" ∧
    ((mkEmailService ps config).processEmail email).1.attempts.length =
      ps.length * config.maxRetries := by
  have hbrk : ∀ p ∈ (mkEmailService ps config).providers,
      ∃ b, mapGet (mkEmailService ps config).breakerMap p.name = some b ∧
        b.failures < b.threshold :=
    fun p hp => ⟨_, mkEmailService_breaker ps config p hp, hth⟩
  exact processEmail_allFail (mkEmailService ps config) email hall hnames hbrk

theorem retry_exhaustion_all_fail_witness :
    ((mkEmailService [demoBadProvider, demoBadProviderB] {}).processEmail
        demoEmail).1.status = EmailState.failed ∧
    ((mkEmailService [demoBadProvider, demoBadProviderB] {}).processEmail
        demoEmail).1.error = some "All providers failed after retries" ∧
    ((mkEmailService [demoBadProvider, demoBadProviderB] {}).processEmail
        demoEmail).1.attempts.length = 2 * 3 :=
  retry_exhaustion_all_fail [demoBadProvider, demoBadProviderB] {} demoEmail
    (by intro p hp
        rcases List.mem_cons.mp hp with rfl | hp
        · exact ⟨rfl, fun i => rfl⟩
        · rcases List.mem_cons.mp hp with rfl | hp
          · exact ⟨rfl, fun i => rfl⟩
          · simp at hp)
    (by decide) (by decide)

/-- The `processEmail` with providers `[AlwaysFails, AlwaysSucceeds]`, both
healthy, distinctly named, both breakers closed: the first provider burns
its full retry budget, then the second succeeds on its first try; no
further provider or retry runs after the success. -/
theorem processEmail_fallback (svc : EmailService) (email : EmailRequest)
    (pf psu : EmailProvider)
    (hprov : svc.providers = [pf, psu])
    (hpf : ProviderAlwaysFails pf) (hpsu : ProviderAlwaysSucceeds psu)
    (hhf : pf.healthy = true) (hhs : psu.healthy = true)
    (hne : psu.name ≠ pf.name)
    (hbfex : ∃ b, mapGet svc.breakerMap pf.name = some b ∧ b.failures < b.threshold)
    (hbsex : ∃ b, mapGet svc.breakerMap psu.name = some b ∧ b.failures < b.threshold)
    (hmr : 1 ≤ svc.config.maxRetries) :
    (svc.processEmail email).1.status = EmailState.sent ∧
    (svc.processEmail email).1.provider = some psu.name ∧
    (∃ l a, (svc.processEmail email).1.attempts = l ++ [a] ∧
      l.length = svc.config.maxRetries ∧
      (∀ x ∈ l, x.success = false ∧ x.provider = pf.name) ∧
      a.success = true ∧ a.provider = psu.name) ∧
    (svc.processEmail email).2.sendCalls =
      svc.sendCalls + svc.config.maxRetries + 1 := by
  obtain ⟨bf, hbfm, hbff⟩ := hbfex
  obtain ⟨bs, hbsm, hbsf⟩ := hbsex
  have hopenf : bf.isOpen (svc.clock + 1) = (false, bf) := by
    simp [CircuitBreaker.isOpen, Nat.not_le.mpr hbff]
  have hF := tryProvider_allFail pf email hpf svc.config.maxRetries 0
    ({ status := EmailState.pending, timestamp := svc.clock, retryCount := 0, attempts := [] } : EmailStatus)
    ({ svc with providers := [pf, psu], statusMap := mapSet svc.statusMap email.id { status := EmailState.pending, timestamp := svc.clock, retryCount := 0, attempts := [] }, breakerMap := mapSet svc.breakerMap pf.name bf, clock := svc.clock + 1 + 1 } : EmailService)
  set svc2 : EmailService :=
    { svc with providers := [pf, psu], statusMap := mapSet svc.statusMap email.id { status := EmailState.pending, timestamp := svc.clock, retryCount := 0, attempts := [] }, breakerMap := mapSet svc.breakerMap pf.name bf, clock := svc.clock + 1 + 1 }
    with hsvc2
  set t := tryProvider pf email svc.config.maxRetries 0
    ({ status := EmailState.pending, timestamp := svc.clock, retryCount := 0, attempts := [] } : EmailStatus) svc2 with ht
  have hbsm2 : mapGet t.2.2.breakerMap psu.name = some bs :=
    (hF.2.2.1 psu.name hne).trans
      ((mapGet_mapSet_ne svc.breakerMap pf.name psu.name bf hne).trans hbsm)
  have hopens : bs.isOpen t.2.2.clock = (false, bs) := by
    simp [CircuitBreaker.isOpen, Nat.not_le.mpr hbsf]
  have hmr2 : 1 ≤ t.2.2.config.maxRetries := by
    rw [hF.2.2.2.1]
    exact hmr
  have hS := tryProvider_succeeds psu email hpsu t.2.2.config.maxRetries 0 t.2.1
    ({ t.2.2 with clock := t.2.2.clock + 1, breakerMap := mapSet t.2.2.breakerMap psu.name bs } : EmailService) hmr2
  set svc3 : EmailService :=
    { t.2.2 with clock := t.2.2.clock + 1, breakerMap := mapSet t.2.2.breakerMap psu.name bs }
    with hsvc3
  set t2 := tryProvider psu email t.2.2.config.maxRetries 0 t.2.1 svc3 with ht2
  simp only [EmailService.processEmail, hprov, loopProviders, hbfm, hopenf, hhf,
    eq_self_iff_true, if_true, Bool.false_eq_true, if_false]
  rw [← hsvc2, ← ht, hF.1]
  simp only [Bool.false_eq_true, if_false, hbsm2, hopens, hhs, eq_self_iff_true,
    if_true]
  rw [← hsvc3, ← ht2, hS.1]
  simp only [eq_self_iff_true, if_true]
  obtain ⟨lf, ef1, ef2, ef3⟩ := hF.2.1
  obtain ⟨a, ea1, ea2, ea3⟩ := hS.2.1
  refine ⟨hS.2.2.1, hS.2.2.2.1, ⟨lf, a, ?_, ef2, ef3, ea2, ea3⟩, ?_⟩
  · simp [ea1, ef1]
  · rw [hS.2.2.2.2.2.2]
    show t.2.2.sendCalls + 1 = svc.sendCalls + svc.config.maxRetries + 1
    rw [hF.2.2.2.2]

/-- Claim C4: for the provider list `[AlwaysFails, AlwaysSucceeds]` on a
fresh service (both providers healthy, distinct names, positive breaker
threshold so both breakers are closed), processing yields a `sent` Status
with `provider = AlwaysSucceeds.name` whose attempt list is exactly
`maxRetries` failed attempts against the first provider followed by one
successful attempt, and exactly `maxRetries + 1` provider send calls are
made in total — nothing runs after the success. -/
theorem fallback_first_success (pf psu : EmailProvider)
    (config : EmailServiceConfig) (email : EmailRequest)
    (hpf : ProviderAlwaysFails pf) (hpsu : ProviderAlwaysSucceeds psu)
    (hhf : pf.healthy = true) (hhs : psu.healthy = true)
    (hne : psu.name ≠ pf.name)
    (hth : 1 ≤ config.circuitBreakerThreshold)
    (hmr : 1 ≤ config.maxRetries) :
    ((mkEmailService [pf, psu] config).processEmail email).1.status =
      EmailState.sent ∧
    ((mkEmailService [pf, psu] config).processEmail email).1.provider =
      some psu.name ∧
    (∃ l a, ((mkEmailService [pf, psu] config).processEmail email).1.attempts =
        l ++ [a] ∧
      l.length = config.maxRetries ∧
      (∀ x ∈ l, x.success = false ∧ x.provider = pf.name) ∧
      a.success = true ∧ a.provider = psu.name) ∧
    ((mkEmailService [pf, psu] config).processEmail email).2.sendCalls =
      config.maxRetries + 1 := by
  have hbf : ∃ b, mapGet (mkEmailService [pf, psu] config).breakerMap pf.name =
      some b ∧ b.failures < b.threshold :=
    ⟨_, mkEmailService_breaker [pf, psu] config pf (by simp), hth⟩
  have hbs : ∃ b, mapGet (mkEmailService [pf, psu] config).breakerMap psu.name =
      some b ∧ b.failures < b.threshold :=
    ⟨_, mkEmailService_breaker [pf, psu] config psu (by simp), hth⟩
  have h := processEmail_fallback (mkEmailService [pf, psu] config) email pf psu
    rfl hpf hpsu hhf hhs hne hbf hbs hmr
  exact ⟨h.1, h.2.1, h.2.2.1, h.2.2.2.trans (by simp [mkEmailService])⟩

theorem fallback_first_success_witness :
    ((mkEmailService [demoBadProvider, demoGoodProvider] {}).processEmail
        demoEmail).1.status = EmailState.sent ∧
    ((mkEmailService [demoBadProvider, demoGoodProvider] {}).processEmail
        demoEmail).1.provider = some demoGoodProvider.name ∧
    (∃ l a, ((mkEmailService [demoBadProvider, demoGoodProvider] {}).processEmail
        demoEmail).1.attempts = l ++ [a] ∧
      l.length = (3 : Nat) ∧
      (∀ x ∈ l, x.success = false ∧ x.provider = demoBadProvider.name) ∧
      a.success = true ∧ a.provider = demoGoodProvider.name) ∧
    ((mkEmailService [demoBadProvider, demoGoodProvider] {}).processEmail
        demoEmail).2.sendCalls = (4 : Nat) :=
  fallback_first_success demoBadProvider demoGoodProvider {} demoEmail
    (fun i => rfl) (fun i => rfl) rfl rfl (by decide) (by decide) (by decide)

/-! ### C8: rate limiter sliding-window admission bound -/

/-- Pruning against an earlier reference time and then against a later one
equals pruning against the later one (the clock is monotone, so anything in
the later window is in the earlier window). -/
theorem filter_window_absorb (W : Nat) {a b : Nat} (hab : a ≤ b) (A : List Nat) :
    (A.filter (fun s => decide (a - s < W))).filter
        (fun s => decide (b - s < W)) =
      A.filter (fun s => decide (b - s < W)) := by
  induction A with
  | nil => rfl
  | cons x xs ih =>
    by_cases h1 : a - x < W
    · by_cases h2 : b - x < W <;> simp [h1, h2, ih]
    · have h2 : ¬ b - x < W :=
        fun hc => h1 (lt_of_le_of_lt (Nat.sub_le_sub_right hab x) hc)
      simp [h1, h2, ih]

/-- Invariant-carrying form of the admission bound: `A` is the list of
previously admitted times (all ≤ `now0`, the last call time), and the
window-pruned admitted times form a sublist of the recorded log.  Then at
every later admission `t`, at most `N` admitted times (the admission
itself included) lie in the trailing window ending at `t`. -/
theorem runAllow_window_aux (N W : Nat) :
    ∀ (ts A reqs : List Nat) (now0 : Nat),
      (∀ a ∈ A, a ≤ now0) →
      List.Chain' (· ≤ ·) (now0 :: ts) →
      List.Sublist (A.filter (fun s => decide (now0 - s < W))) reqs →
      ∀ u t v,
        (runAllow { max := N, interval := W, requests := reqs } ts).2 =
          u ++ t :: v →
        ((A ++ u) ++ [t]).countP (fun s => decide (t - s < W)) ≤ N := by
  intro ts
  induction ts with
  | nil =>
    intro A reqs now0 _ _ _ u t v h
    simp only [runAllow] at h
    rcases u with _ | ⟨x, u⟩ <;> simp at h
  | cons t1 ts ih =>
    intro A reqs now0 hA hchain hsub u t v h
    obtain ⟨h01, hchain'⟩ := List.chain'_cons.mp hchain
    have habs : (A.filter (fun s => decide (now0 - s < W))).filter
        (fun s => decide (t1 - s < W)) = A.filter (fun s => decide (t1 - s < W)) :=
      filter_window_absorb W h01 A
    have hsubf : List.Sublist (A.filter (fun s => decide (t1 - s < W)))
        (reqs.filter (fun s => decide (t1 - s < W))) := by
      rw [← habs]
      exact List.Sublist.filter _ hsub
    by_cases hadm : (reqs.filter (fun s => decide (t1 - s < W))).length < N
    · have hallow : RateLimiter.allow ⟨N, W, reqs⟩ t1 =
          (true, ⟨N, W, reqs.filter (fun s => decide (t1 - s < W)) ++ [t1]⟩) := by
        simp [RateLimiter.allow, hadm]
      simp only [runAllow, hallow, if_true] at h
      rcases u with _ | ⟨x, u⟩
      · simp only [List.nil_append] at h
        obtain ⟨h1, h2⟩ := List.cons.inj h
        subst h1
        have hcnt : ((A ++ []) ++ [t1]).countP (fun s => decide (t1 - s < W)) =
            A.countP (fun s => decide (t1 - s < W)) +
              List.countP (fun s => decide (t1 - s < W)) [t1] := by
          simp [List.countP_append]
        rw [hcnt, List.countP_eq_length_filter]
        have hle1 : (A.filter (fun s => decide (t1 - s < W))).length ≤
            (reqs.filter (fun s => decide (t1 - s < W))).length :=
          List.Sublist.length_le hsubf
        have hle2 : List.countP (fun s => decide (t1 - s < W)) [t1] ≤ 1 := by
          have hl : List.countP (fun s => decide (t1 - s < W)) [t1] ≤
              ([t1] : List Nat).length :=
            List.countP_le_length _
          simpa using hl
        omega
      · obtain ⟨rfl, hrest⟩ := List.cons.inj h
        have hA' : ∀ a ∈ A ++ [t1], a ≤ t1 := by
          intro a ha
          rcases List.mem_append.mp ha with ha | ha
          · exact (hA a ha).trans h01
          · simp at ha
            omega
        have hsub' : List.Sublist ((A ++ [t1]).filter (fun s => decide (t1 - s < W)))
            (reqs.filter (fun s => decide (t1 - s < W)) ++ [t1]) := by
          rw [List.filter_append]
          exact List.Sublist.append hsubf (List.filter_sublist _)
        have hmain := ih (A ++ [t1])
          (reqs.filter (fun s => decide (t1 - s < W)) ++ [t1]) t1 hA' hchain'
          hsub' u t v hrest
        calc ((A ++ t1 :: u) ++ [t]).countP (fun s => decide (t - s < W))
            = (((A ++ [t1]) ++ u) ++ [t]).countP (fun s => decide (t - s < W)) := by
              simp
          _ ≤ N := hmain
    · have hallow : RateLimiter.allow ⟨N, W, reqs⟩ t1 =
          (false, ⟨N, W, reqs.filter (fun s => decide (t1 - s < W))⟩) := by
        simp [RateLimiter.allow, Nat.not_lt.mp hadm]
      simp only [runAllow, hallow, if_false] at h
      have hA' : ∀ a ∈ A, a ≤ t1 := fun a ha => (hA a ha).trans h01
      exact ih A (reqs.filter (fun s => decide (t1 - s < W))) t1 hA' hchain'
        hsubf u t v h

/-- Claim C8: each `allow` call first prunes the recorded timestamps to the
trailing window, then admits (recording the current time) iff fewer than
`max` remain, and records nothing on denial; consequently, for any
nondecreasing sequence of call times starting from a fresh limiter, every
admitted call has at most `max` admitted calls (itself included) within the
trailing window of length `interval` ending at its time. -/
theorem rateLimiter_window_bound :
    (∀ (rl : RateLimiter) (now : Nat),
      ((rl.requests.filter (fun t => decide (now - t < rl.interval))).length <
          rl.max →
        rl.allow now = (true, { rl with requests := rl.requests.filter (fun t => decide (now - t < rl.interval)) ++ [now] })) ∧
      (rl.max ≤
          (rl.requests.filter (fun t => decide (now - t < rl.interval))).length →
        rl.allow now = (false, { rl with requests := rl.requests.filter (fun t => decide (now - t < rl.interval)) }))) ∧
    (∀ (N W : Nat) (ts : List Nat), List.Chain' (· ≤ ·) ts →
      ∀ u t v,
        (runAllow { max := N, interval := W, requests := [] } ts).2 =
          u ++ t :: v →
        (u ++ [t]).countP (fun s => decide (t - s < W)) ≤ N) := by
  constructor
  · intro rl now
    constructor
    · intro h
      simp [RateLimiter.allow, h]
    · intro h
      simp [RateLimiter.allow, Nat.not_lt.mpr h]
  · intro N W ts hchain u t v h
    have hchain0 : List.Chain' (· ≤ ·) (0 :: ts) := by
      cases ts with
      | nil => simp
      | cons x xs => exact List.chain'_cons.mpr ⟨Nat.zero_le x, hchain⟩
    have := runAllow_window_aux N W ts [] [] 0 (by simp) hchain0 (by simp)
      u t v h
    simpa using this

theorem rateLimiter_window_bound_witness :
    RateLimiter.allow ⟨1, 10, [0]⟩ 5 = (false, ⟨1, 10, [0]⟩) ∧
    (runAllow ⟨1, 10, []⟩ [0, 0, 5, 20]).2 = [0] ++ 20 :: [] ∧
    ([0] ++ [20]).countP (fun s => decide (20 - s < 10)) ≤ 1 := by
  refine ⟨?_, by decide, ?_⟩
  · exact (rateLimiter_window_bound.1 ⟨1, 10, [0]⟩ 5).2 (by decide)
  · exact rateLimiter_window_bound.2 1 10 [0, 0, 5, 20]
      (by simp [List.chain'_cons]) [0] 20 [] (by decide)
